import Mathlib

/-!
Verification of `build_snli_hard_challenge.py`, a script that extracts a
"hard slice" challenge set from the SNLI train split.  The script is embedded
shallowly: text is `String`, tokens are `List Char`, the Jaccard overlap is a
rational number, and the seeded pseudo-random shuffles of Python's `random`
module (an external collaborator) are modelled as an explicitly threaded
state with an arbitrary state-passing shuffle function, constrained where
needed by the hypothesis that a shuffle returns a permutation of its input.
-/

namespace SNLI

/-- Predicate for the characters the tokenizer keeps: the class `[a-z0-9]`
of the regex in `simple_tokenize` (source line 36). -/
def isLowerAlnum (c : Char) : Bool :=
  (decide ('a' ≤ c) && decide (c ≤ 'z')) ||
  (decide ('0' ≤ c) && decide (c ≤ '9'))

/-- One character of `text.lower()` followed by the substitution
`re.sub(r"[^a-z0-9]+", " ", text)` (source lines 35-36): lower-case the
character, keep it if it lies in `[a-z0-9]`, otherwise turn it into a
space.  Replacing a maximal run by a single space and replacing each
character of the run by a space are indistinguishable after the final
whitespace split that drops empty fragments. -/
def normChar (c : Char) : Char :=
  if isLowerAlnum c.toLower then c.toLower else ' '

/-- Whitespace split that drops empty fragments (`text.split()` composed
with the comprehension of source line 37); the accumulator holds the
current fragment reversed. -/
def splitTok : List Char → List Char → List (List Char)
  | [], acc => if acc = [] then [] else [acc.reverse]
  | c :: cs, acc =>
    if c = ' ' then
      if acc = [] then splitTok cs [] else acc.reverse :: splitTok cs []
    else splitTok cs (c :: acc)

/-- `simple_tokenize` (source lines 34-38): lower-case, replace non
`[a-z0-9]` runs by spaces, split on whitespace, drop empties. -/
def simple_tokenize (text : String) : List (List Char) :=
  splitTok (text.toList.map normChar) []

/-- `NEGATION_WORDS` (source lines 28-31), verbatim, including the three
apostrophe-bearing entries (the apostrophe is written `\x27`). -/
def NEGATION_WORDS : List (List Char) :=
  [String.toList ("not"), String.toList ("no"), String.toList ("never"),
   String.toList ("none"), String.toList ("nobody"), String.toList ("nothing"),
   String.toList ("nowhere"), String.toList ("neither"), String.toList ("nor"),
   String.toList ("n\x27t"), String.toList ("cant"), String.toList ("can\x27t"),
   String.toList ("dont"), String.toList ("don\x27t")]

/-- `has_negation` (source lines 41-43): some token of the text lies in the
negation vocabulary. -/
def has_negation (text : String) : Bool :=
  (simple_tokenize text).any (fun t => decide (t ∈ NEGATION_WORDS))

/-- The set of unique tokens of a text (`set(simple_tokenize(...))`). -/
def tokenFinset (text : String) : Finset (List Char) :=
  (simple_tokenize text).toFinset

/-- `lexical_overlap` (source lines 46-53): Jaccard similarity of the unique
token sets, `0` when either side is empty. -/
def lexical_overlap (prem hyp : String) : ℚ :=
  if tokenFinset prem = ∅ ∨ tokenFinset hyp = ∅ then 0
  else ((tokenFinset prem ∩ tokenFinset hyp).card : ℚ) /
       ((tokenFinset prem ∪ tokenFinset hyp).card : ℚ)

/-- An SNLI example record: `premise`, `hypothesis`, `label`
(-1 unlabeled, 0 entailment, 1 neutral, 2 contradiction). -/
structure Example where
  premise : String
  hypothesis : String
  label : Int
deriving DecidableEq

/-- `is_hard_example` (source lines 56-71): reject on a negation token in
the hypothesis, then on hypothesis length `<= 10`, then on overlap
`>= 0.2`; accept otherwise. -/
def is_hard_example (ex : Example) : Bool :=
  if has_negation ex.hypothesis then false
  else if (simple_tokenize ex.hypothesis).length ≤ 10 then false
  else if (1 : ℚ)/5 ≤ lexical_overlap ex.premise ex.hypothesis then false
  else true

/-- The filter of source line 89: drop unlabeled examples. -/
def removeUnlabeled (train : List Example) : List Example :=
  train.filter (fun ex => decide (ex.label ≠ -1))

/-- The per-label group built by the loop of source lines 96-100: hard
examples of the filtered train split whose label equals the group key, in
input order. -/
def buildGroup (train : List Example) (lab : Int) : List Example :=
  (removeUnlabeled train).filter
    (fun ex => is_hard_example ex && decide (ex.label = lab))

/-- The stratified sampling of source lines 106-113.  The seeded global
random generator of Python's `random` module is external to the script; it
is modelled as a state `s0 : σ` threaded through an arbitrary shuffle
function, exactly the explicitly passed random-source handle of the design
notes.  The three groups are shuffled in key order 0, 1, 2, truncated to
`m`, concatenated, and the concatenation is shuffled. -/
def sampleSelection {σ : Type} (shuffle : σ → List Example → List Example × σ)
    (s0 : σ) (g0 g1 g2 : List Example) (m : Nat) : List Example × σ :=
  let r0 := shuffle s0 g0
  let r1 := shuffle r0.2 g1
  let r2 := shuffle r1.2 g2
  shuffle r2.2 (r0.1.take m ++ (r1.1.take m ++ r2.1.take m))

/-- The whole selection pipeline of `main` (source lines 88-113): filter
unlabeled, group hard examples by label, shuffle and truncate per label,
concatenate, shuffle globally. -/
def pipelineSelection {σ : Type} (shuffle : σ → List Example → List Example × σ)
    (s0 : σ) (train : List Example) (m : Nat) : List Example :=
  (sampleSelection shuffle s0
    (buildGroup train 0) (buildGroup train 1) (buildGroup train 2) m).1

/-- The record serialized for one output line (source lines 119-123). -/
structure OutRecord where
  premise : String
  hypothesis : String
  label : Int
deriving DecidableEq

/-- The records written by the output loop, one per selected example, in
selection order (source lines 118-123). -/
def writeRecords (sel : List Example) : List OutRecord :=
  sel.map (fun ex => OutRecord.mk ex.premise ex.hypothesis ex.label)

/-- Modelled from the spec: the negation vocabulary with the three
apostrophe-bearing entries removed, used to compare the negation detector
against the detector over the full vocabulary (design notes, §4.2). -/
def NEGATION_WORDS_noApostrophe : List (List Char) :=
  [String.toList ("not"), String.toList ("no"), String.toList ("never"),
   String.toList ("none"), String.toList ("nobody"), String.toList ("nothing"),
   String.toList ("nowhere"), String.toList ("neither"), String.toList ("nor"),
   String.toList ("cant"), String.toList ("dont")]

/-- Modelled from the spec: `has_negation` run over the reduced vocabulary
`NEGATION_WORDS_noApostrophe`. -/
def has_negation_noApostrophe (text : String) : Bool :=
  (simple_tokenize text).any (fun t => decide (t ∈ NEGATION_WORDS_noApostrophe))

/-- Fixture (a) of the end-to-end scenario: negated hypothesis, label 1. -/
def exA : Example :=
  Example.mk ("a man runs") ("a man is not running very quickly today outside") 1

/-- Fixture (b) of the end-to-end scenario: long, low-overlap hypothesis,
label 0. -/
def exB : Example :=
  Example.mk ("a dog sleeps")
    ("a completely unrelated group of people are celebrating a festival downtown") 0

/-- Fixture (c) of the end-to-end scenario: hypothesis equal to the premise,
label 2. -/
def exC : Example :=
  Example.mk ("a cat eats food") ("a cat eats food") 2

/-- Hexadecimal digit character for a value below 16. -/
def hexDigitChar (n : Nat) : Char :=
  if n < 10 then Char.ofNat (48 + n) else Char.ofNat (87 + n)

/-- Modelled from the spec: JSON escaping of one character inside a string
literal, as performed by the external `json.dumps` serializer on source
line 124.  Quote and backslash get a backslash escape, control characters
get a `\u00XX` escape, everything else is emitted literally. -/
def escChar (c : Char) : List Char :=
  if c = '"' ∨ c = '\\' then ['\\', c]
  else if c.toNat < 32 then
    ['\\', 'u', '0', '0', hexDigitChar (c.toNat / 16), hexDigitChar (c.toNat % 16)]
  else [c]

/-- Modelled from the spec: a JSON string literal, a quoted sequence of
escaped characters. -/
def encString (s : List Char) : List Char :=
  '"' :: (List.flatten (s.map escChar) ++ ['"'])

/-- Decimal digit character. -/
def digitChar (n : Nat) : Char := Char.ofNat (48 + n)

/-- Decimal digits of a natural number, most significant first; the fuel
argument only drives structural recursion. -/
def natToDigitsAux : Nat → Nat → List Char
  | 0, _ => []
  | fuel + 1, n =>
    if n < 10 then [digitChar n]
    else natToDigitsAux fuel (n / 10) ++ [digitChar (n % 10)]

/-- Decimal digits of a natural number, most significant first. -/
def natToDigits (n : Nat) : List Char := natToDigitsAux (n + 1) n

/-- Modelled from the spec: JSON serialization of an integer. -/
def encInt : Int → List Char
  | Int.ofNat n => natToDigits n
  | Int.negSucc n => '-' :: natToDigits (n + 1)

/-- The characters of the key `premise`. -/
def keyPremise : List Char := String.toList ("premise")

/-- The characters of the key `hypothesis`. -/
def keyHypothesis : List Char := String.toList ("hypothesis")

/-- The characters of the key `label`. -/
def keyLabel : List Char := String.toList ("label")

/-- The `": "` separator between a key and its value. -/
def colonSep : List Char := [':', ' ']

/-- The `", "` separator between members. -/
def commaSep : List Char := [',', ' ']

/-- Modelled from the spec: the one-line JSON object written for a record
by source lines 119-124, with the keys `premise`, `hypothesis`, `label` in
that order. -/
def enc3 (r : OutRecord) : List Char :=
  '{' :: (encString keyPremise ++ colonSep ++ encString r.premise.toList ++
    commaSep ++ encString keyHypothesis ++ colonSep ++
    encString r.hypothesis.toList ++ commaSep ++ encString keyLabel ++
    colonSep ++ encInt r.label ++ [Char.ofNat 125])

/-- The full character stream written to the output file (source lines
117-125): the serialized object of each selected example followed by a
newline. -/
def outputChars (sel : List Example) : List Char :=
  List.flatten ((writeRecords sel).map (fun r => enc3 r ++ ['\n']))

/-- Value of a hexadecimal digit character, when it is one. -/
def hexVal (c : Char) : Option Nat :=
  if '0' ≤ c ∧ c ≤ '9' then some (c.toNat - 48)
  else if 'a' ≤ c ∧ c ≤ 'f' then some (c.toNat - 87)
  else if 'A' ≤ c ∧ c ≤ 'F' then some (c.toNat - 55)
  else none

/-- Numeric value of four hexadecimal digit characters, when all four are
hexadecimal digits. -/
def decodeHex (h1 h2 h3 h4 : Char) : Option Nat :=
  (hexVal h1).bind (fun a => (hexVal h2).bind (fun b =>
    (hexVal h3).bind (fun e => (hexVal h4).map (fun f =>
      ((a * 16 + b) * 16 + e) * 16 + f))))

/-- JSON string-literal body reader: consumes characters up to an unescaped
closing quote, undoing backslash and `\uXXXX` escapes, and returns the
decoded characters together with the unconsumed rest of the input.  The
fuel argument only drives structural recursion; one unit is spent per
decoded character. -/
def parseStrAuxF : Nat → List Char → Option (List Char × List Char)
  | 0, _ => none
  | fuel + 1, l =>
    match l with
    | [] => none
    | c :: rest =>
      if c = '"' then some ([], rest)
      else if c = '\\' then
        match rest with
        | [] => none
        | d :: rest2 =>
          if d = '"' ∨ d = '\\' then
            Option.map (fun p => (d :: p.1, p.2)) (parseStrAuxF fuel rest2)
          else if d = 'u' then
            match rest2 with
            | h1 :: h2 :: h3 :: h4 :: rest3 =>
              (decodeHex h1 h2 h3 h4).bind (fun n =>
                if Nat.isValidChar n then
                  Option.map (fun p => (Char.ofNat n :: p.1, p.2))
                    (parseStrAuxF fuel rest3)
                else none)
            | _ => none
          else none
      else
        Option.map (fun p => (c :: p.1, p.2)) (parseStrAuxF fuel rest)

/-- JSON string-literal reader: expects an opening quote and reads the body
with enough fuel for the rest of the input. -/
def parseString (input : List Char) : Option (List Char × List Char) :=
  match input with
  | c :: rest => if c = '"' then parseStrAuxF (rest.length + 1) rest else none
  | [] => none

/-- Greedy decimal-digit run reader. -/
def parseDigits : List Char → List Char × List Char
  | [] => ([], [])
  | c :: rest =>
    if '0' ≤ c ∧ c ≤ '9' then
      ((c :: (parseDigits rest).1), (parseDigits rest).2)
    else ([], c :: rest)

/-- Value of a decimal digit string, most significant first. -/
def digitsToNat (ds : List Char) : Nat :=
  ds.foldl (fun acc c => acc * 10 + (c.toNat - 48)) 0

/-- JSON integer reader: an optional minus sign followed by a nonempty
digit run. -/
def parseInt (input : List Char) : Option (Int × List Char) :=
  match input with
  | '-' :: rest =>
    match parseDigits rest with
    | ([], _) => none
    | (ds, r) => some (-(digitsToNat ds : Int), r)
  | l =>
    match parseDigits l with
    | ([], _) => none
    | (ds, r) => some ((digitsToNat ds : Int), r)

/-- Literal-text reader: consumes an expected prefix. -/
def parseLit (lit input : List Char) : Option (List Char) :=
  if lit.isPrefixOf input then some (input.drop lit.length) else none

/-- A JSON value of the two shapes the writer emits: string or integer. -/
inductive JVal where
  | jstr : List Char → JVal
  | jint : Int → JVal
deriving DecidableEq

/-- JSON value reader for the two emitted shapes. -/
def parseVal (input : List Char) : Option (JVal × List Char) :=
  match input with
  | '"' :: _ =>
    Option.map (fun p => (JVal.jstr p.1, p.2)) (parseString input)
  | l =>
    Option.map (fun p => (JVal.jint p.1, p.2)) (parseInt l)

/-- JSON object-member reader: a string key, the `": "` separator, and a
value. -/
def parseMember (input : List Char) : Option ((List Char × JVal) × List Char) :=
  (parseString input).bind (fun kr =>
    (parseLit colonSep kr.2).bind (fun r2 =>
      Option.map (fun vr => ((kr.1, vr.1), vr.2)) (parseVal r2)))

/-- Reader for a flat JSON object with exactly three members, consuming the
whole input: it succeeds exactly on `\x7b member, member, member \x7d` and
returns the three key-value pairs in order. -/
def parseObj3 (input : List Char) : Option (List (List Char × JVal)) :=
  match input with
  | c :: r0 =>
    if c = '{' then
      (parseMember r0).bind (fun m1 =>
        (parseLit commaSep m1.2).bind (fun r2 =>
          (parseMember r2).bind (fun m2 =>
            (parseLit commaSep m2.2).bind (fun r4 =>
              (parseMember r4).bind (fun m3 =>
                if m3.2 = [Char.ofNat 125] then some [m1.1, m2.1, m3.1]
                else none)))))
    else none
  | [] => none

theorem normChar_cases (c : Char) :
    normChar c = ' ' ∨ isLowerAlnum (normChar c) = true := by
  by_cases h : isLowerAlnum c.toLower = true
  · right
    rw [normChar, if_pos h]
    exact h
  · left
    rw [normChar, if_neg h]

theorem splitTok_sound (l : List Char) : ∀ (acc : List Char),
    (∀ c ∈ l, c = ' ' ∨ isLowerAlnum c = true) →
    (∀ c ∈ acc, isLowerAlnum c = true) →
    ∀ t ∈ splitTok l acc, t ≠ [] ∧ ∀ c ∈ t, isLowerAlnum c = true := by
  induction l with
  | nil =>
    intro acc _ hacc t ht
    rw [splitTok] at ht
    by_cases h : acc = []
    · simp [h] at ht
    · rw [if_neg h] at ht
      rw [List.mem_singleton] at ht
      subst ht
      refine ⟨by simpa using h, ?_⟩
      intro c hc
      exact hacc c (List.mem_reverse.mp hc)
  | cons c cs ih =>
    intro acc hl hacc t ht
    have hcs : ∀ d ∈ cs, d = ' ' ∨ isLowerAlnum d = true :=
      fun d hd => hl d (List.mem_cons_of_mem c hd)
    rw [splitTok] at ht
    by_cases hsp : c = ' '
    · rw [if_pos hsp] at ht
      by_cases hacc0 : acc = []
      · rw [if_pos hacc0] at ht
        exact ih [] hcs (by simp) t ht
      · rw [if_neg hacc0] at ht
        rcases List.mem_cons.mp ht with h | h
        · subst h
          refine ⟨by simpa using hacc0, ?_⟩
          intro d hd
          exact hacc d (List.mem_reverse.mp hd)
        · exact ih [] hcs (by simp) t h
    · rw [if_neg hsp] at ht
      refine ih (c :: acc) hcs ?_ t ht
      intro d hd
      rcases List.mem_cons.mp hd with h | h
      · subst h
        rcases hl d (List.mem_cons_self _ _) with h | h
        · exact absurd h hsp
        · exact h
      · exact hacc d h

theorem tokens_alnum (text : String) :
    ∀ t ∈ simple_tokenize text, t ≠ [] ∧ ∀ c ∈ t, isLowerAlnum c = true := by
  intro t ht
  refine splitTok_sound _ [] ?_ (by simp) t ht
  intro c hc
  rcases List.mem_map.mp hc with ⟨d, _, rfl⟩
  exact normChar_cases d

/-- Claim C5: on every input text, every token produced by the tokenizer is
nonempty and consists only of characters in `[a-z0-9]`, and the empty input
yields the empty token sequence. -/
theorem simple_tokenize_tokens_wellformed (text : String) :
    (∀ t ∈ simple_tokenize text, t ≠ [] ∧ ∀ c ∈ t, isLowerAlnum c = true) ∧
    simple_tokenize ("") = [] :=
  ⟨tokens_alnum text, rfl⟩

/-- Claim C1: the heuristic evaluator accepts an example iff the hypothesis
has no negation token, the hypothesis has strictly more than 10 tokens, and
the premise-hypothesis overlap is strictly below 1/5. -/
theorem is_hard_example_iff (ex : Example) :
    is_hard_example ex = true ↔
      (has_negation ex.hypothesis = false ∧
       10 < (simple_tokenize ex.hypothesis).length ∧
       lexical_overlap ex.premise ex.hypothesis < 1/5) := by
  rw [is_hard_example]
  split_ifs with h1 h2 h3
  · simp [h1]
  · simp only [Bool.false_eq_true, false_iff]
    intro h
    omega
  · simp only [Bool.false_eq_true, false_iff]
    intro h
    exact absurd h3 (not_le.mpr h.2.2)
  · simp only [true_iff]
    refine ⟨by simpa using h1, by omega, not_le.mp h3⟩

/-- Claim C10: the hardness decision reads only the premise and the
hypothesis; two examples agreeing on both get the same decision whatever
their labels. -/
theorem is_hard_example_label_independent (e1 e2 : Example)
    (hp : e1.premise = e2.premise) (hh : e1.hypothesis = e2.hypothesis) :
    is_hard_example e1 = is_hard_example e2 := by
  rw [is_hard_example, is_hard_example, hp, hh]

theorem is_hard_example_label_independent_witness :
    is_hard_example (Example.mk ("x") ("y") 0) =
      is_hard_example (Example.mk ("x") ("y") 2) :=
  is_hard_example_label_independent _ _ rfl rfl

/-- Claim C4: the overlap scorer returns the Jaccard similarity of the
unique-token sets, lies in `[0,1]`, is symmetric, and is `0` whenever
either side tokenizes to the empty set. -/
theorem lexical_overlap_spec (p h : String) :
    0 ≤ lexical_overlap p h ∧ lexical_overlap p h ≤ 1 ∧
    lexical_overlap p h = lexical_overlap h p ∧
    ((tokenFinset p = ∅ ∨ tokenFinset h = ∅) → lexical_overlap p h = 0) ∧
    (tokenFinset p ≠ ∅ → tokenFinset h ≠ ∅ →
      lexical_overlap p h =
        ((tokenFinset p ∩ tokenFinset h).card : ℚ) /
        ((tokenFinset p ∪ tokenFinset h).card : ℚ)) := by
  by_cases hp : tokenFinset p = ∅
  · refine ⟨?_, ?_, ?_, ?_, ?_⟩
    · rw [lexical_overlap, if_pos (Or.inl hp)]
    · rw [lexical_overlap, if_pos (Or.inl hp)]
      norm_num
    · rw [lexical_overlap, if_pos (Or.inl hp), lexical_overlap,
        if_pos (Or.inr hp)]
    · intro _
      rw [lexical_overlap, if_pos (Or.inl hp)]
    · intro hcp _
      exact absurd hp hcp
  · by_cases hh : tokenFinset h = ∅
    · refine ⟨?_, ?_, ?_, ?_, ?_⟩
      · rw [lexical_overlap, if_pos (Or.inr hh)]
      · rw [lexical_overlap, if_pos (Or.inr hh)]
        norm_num
      · rw [lexical_overlap, if_pos (Or.inr hh), lexical_overlap,
          if_pos (Or.inl hh)]
      · intro _
        rw [lexical_overlap, if_pos (Or.inr hh)]
      · intro _ hch
        exact absurd hh hch
    · have hno : ¬ (tokenFinset p = ∅ ∨ tokenFinset h = ∅) := by
        intro hor
        rcases hor with hor | hor
        · exact hp hor
        · exact hh hor
      have hno2 : ¬ (tokenFinset h = ∅ ∨ tokenFinset p = ∅) := by
        intro hor
        rcases hor with hor | hor
        · exact hh hor
        · exact hp hor
      have hcardpos : (0 : ℚ) < ((tokenFinset p ∪ tokenFinset h).card : ℚ) := by
        have hne : (tokenFinset p ∪ tokenFinset h).Nonempty := by
          rcases Finset.nonempty_iff_ne_empty.mpr hp with ⟨x, hx⟩
          exact ⟨x, Finset.mem_union_left _ hx⟩
        exact_mod_cast Finset.card_pos.mpr hne
      have hcardle :
          (tokenFinset p ∩ tokenFinset h).card ≤ (tokenFinset p ∪ tokenFinset h).card :=
        Finset.card_le_card
          (fun x hx => Finset.mem_union_left _ (Finset.mem_of_mem_inter_left hx))
      refine ⟨?_, ?_, ?_, ?_, ?_⟩
      · rw [lexical_overlap, if_neg hno]
        positivity
      · rw [lexical_overlap, if_neg hno]
        rw [div_le_one hcardpos]
        exact_mod_cast hcardle
      · rw [lexical_overlap, if_neg hno, lexical_overlap, if_neg hno2,
          Finset.inter_comm, Finset.union_comm]
      · intro hor
        exact absurd hor hno
      · intro _ _
        rw [lexical_overlap, if_neg hno]

theorem lexical_overlap_spec_witness :
    lexical_overlap ("!?") ("abc") = 0 :=
  (lexical_overlap_spec ("!?") ("abc")).2.2.2.1 (Or.inl (by decide))

theorem token_ne_apostrophe_words (t : List Char)
    (ht : ∀ c ∈ t, isLowerAlnum c = true) :
    t ≠ String.toList ("n\x27t") ∧ t ≠ String.toList ("can\x27t") ∧
    t ≠ String.toList ("don\x27t") := by
  refine ⟨?_, ?_, ?_⟩ <;> intro heq
  · have := ht (Char.ofNat 39) (by rw [heq]; decide)
    exact absurd this (by decide)
  · have := ht (Char.ofNat 39) (by rw [heq]; decide)
    exact absurd this (by decide)
  · have := ht (Char.ofNat 39) (by rw [heq]; decide)
    exact absurd this (by decide)

theorem mem_negation_words_iff (t : List Char)
    (ht : ∀ c ∈ t, isLowerAlnum c = true) :
    t ∈ NEGATION_WORDS ↔ t ∈ NEGATION_WORDS_noApostrophe := by
  obtain ⟨h1, h2, h3⟩ := token_ne_apostrophe_words t ht
  rw [NEGATION_WORDS, NEGATION_WORDS_noApostrophe]
  simp only [List.mem_cons, List.not_mem_nil, or_false]
  constructor
  · intro hm
    rcases hm with h | h | h | h | h | h | h | h | h | h | h | h | h | h <;>
      first
        | exact absurd h h1
        | exact absurd h h2
        | exact absurd h h3
        | tauto
  · intro hm
    tauto

/-- Claim C3: the tokenizer never produces the tokens `n't`, `can't` or
`don't`, and the negation detector is extensionally unchanged when the
three apostrophe-bearing vocabulary entries are removed. -/
theorem has_negation_apostrophe_entries_dead (text : String) :
    (∀ t ∈ simple_tokenize text,
      t ≠ String.toList ("n\x27t") ∧ t ≠ String.toList ("can\x27t") ∧
      t ≠ String.toList ("don\x27t")) ∧
    has_negation text = has_negation_noApostrophe text := by
  constructor
  · intro t ht
    exact token_ne_apostrophe_words t (tokens_alnum text t ht).2
  · rw [has_negation, has_negation_noApostrophe]
    cases hany : (simple_tokenize text).any
        (fun t => decide (t ∈ NEGATION_WORDS_noApostrophe)) with
    | true =>
      rw [List.any_eq_true] at hany ⊢
      rcases hany with ⟨t, ht, hm⟩
      refine ⟨t, ht, ?_⟩
      rw [decide_eq_true_eq] at hm ⊢
      exact (mem_negation_words_iff t (tokens_alnum text t ht).2).mpr hm
    | false =>
      rw [List.any_eq_false] at hany ⊢
      intro t ht
      have := hany t ht
      rw [decide_eq_true_eq] at this ⊢
      intro hm
      exact this ((mem_negation_words_iff t (tokens_alnum text t ht).2).mp hm)

theorem buildGroup_mem {train : List Example} {lab : Int} {ex : Example}
    (h : ex ∈ buildGroup train lab) :
    ex.label = lab ∧ ex.label ≠ -1 ∧ is_hard_example ex = true ∧ ex ∈ train := by
  rw [buildGroup, removeUnlabeled] at h
  have h1 := List.mem_filter.mp h
  have h2 := List.mem_filter.mp h1.1
  have h3 := h1.2
  rw [Bool.and_eq_true, decide_eq_true_eq] at h3
  refine ⟨h3.2, ?_, h3.1, h2.1⟩
  have := h2.2
  rw [decide_eq_true_eq] at this
  exact this

theorem sampleSelection_mem {σ : Type} {shuffle : σ → List Example → List Example × σ}
    (hperm : ∀ s l, ((shuffle s l).1).Perm l)
    (s0 : σ) (g0 g1 g2 : List Example) (m : Nat) :
    ∀ ex ∈ (sampleSelection shuffle s0 g0 g1 g2 m).1,
      ex ∈ g0 ∨ ex ∈ g1 ∨ ex ∈ g2 := by
  intro ex hex
  simp only [sampleSelection] at hex
  have hex2 := (hperm _ _).mem_iff.mp hex
  rcases List.mem_append.mp hex2 with h0 | h12
  · exact Or.inl ((hperm _ _).mem_iff.mp (List.take_subset _ _ h0))
  · rcases List.mem_append.mp h12 with hmid | hlast
    · exact Or.inr (Or.inl ((hperm _ _).mem_iff.mp (List.take_subset _ _ hmid)))
    · exact Or.inr (Or.inr ((hperm _ _).mem_iff.mp (List.take_subset _ _ hlast)))

theorem pipelineSelection_mem {σ : Type}
    {shuffle : σ → List Example → List Example × σ}
    (hperm : ∀ s l, ((shuffle s l).1).Perm l)
    (s0 : σ) (train : List Example) (m : Nat) :
    ∀ ex ∈ pipelineSelection shuffle s0 train m,
      ex ∈ buildGroup train 0 ∨ ex ∈ buildGroup train 1 ∨ ex ∈ buildGroup train 2 := by
  intro ex hex
  rw [pipelineSelection] at hex
  exact sampleSelection_mem hperm s0 _ _ _ m ex hex

theorem sampleSelection_countP {σ : Type}
    {shuffle : σ → List Example → List Example × σ}
    (hperm : ∀ s l, ((shuffle s l).1).Perm l)
    (s0 : σ) (g0 g1 g2 : List Example) (m : Nat) (q : Example → Bool) :
    ((sampleSelection shuffle s0 g0 g1 g2 m).1).countP q =
      ((shuffle s0 g0).1.take m).countP q +
      (((shuffle (shuffle s0 g0).2 g1).1.take m).countP q +
       ((shuffle (shuffle (shuffle s0 g0).2 g1).2 g2).1.take m).countP q) := by
  simp only [sampleSelection]
  rw [(hperm _ _).countP_eq, List.countP_append, List.countP_append]

theorem countP_label_take {l : List Example} {ki : Int} (lab : Int) (m : Nat)
    (hall : ∀ ex ∈ l, ex.label = ki) :
    ((l.take m).countP (fun ex => decide (ex.label = lab))) ≤ m ∧
    (ki ≠ lab → ((l.take m).countP (fun ex => decide (ex.label = lab))) = 0) := by
  constructor
  · calc ((l.take m).countP (fun ex => decide (ex.label = lab)))
        ≤ (l.take m).length := List.countP_le_length _
      _ ≤ m := by
          rw [List.length_take]
          exact min_le_left _ _
  · intro hne
    rw [List.countP_eq_zero]
    intro ex hex
    have := hall ex (List.take_subset _ _ hex)
    simp [this, hne]

/-- Claim C6: for every label value, the number of examples with that label
in the final selection is at most `max_per_label`. -/
theorem per_label_at_most_max {σ : Type}
    (shuffle : σ → List Example → List Example × σ)
    (hperm : ∀ s l, ((shuffle s l).1).Perm l)
    (s0 : σ) (train : List Example) (m : Nat) (lab : Int) :
    ((pipelineSelection shuffle s0 train m).filter
        (fun ex => decide (ex.label = lab))).length ≤ m := by
  rw [← List.countP_eq_length_filter, pipelineSelection,
    sampleSelection_countP hperm]
  have hall0 : ∀ ex ∈ (shuffle s0 (buildGroup train 0)).1, ex.label = 0 :=
    fun ex hex => (buildGroup_mem ((hperm _ _).mem_iff.mp hex)).1
  have hall1 : ∀ ex ∈ (shuffle (shuffle s0 (buildGroup train 0)).2
      (buildGroup train 1)).1, ex.label = 1 :=
    fun ex hex => (buildGroup_mem ((hperm _ _).mem_iff.mp hex)).1
  have hall2 : ∀ ex ∈ (shuffle (shuffle (shuffle s0 (buildGroup train 0)).2
      (buildGroup train 1)).2 (buildGroup train 2)).1, ex.label = 2 :=
    fun ex hex => (buildGroup_mem ((hperm _ _).mem_iff.mp hex)).1
  have B0 := countP_label_take lab m hall0
  have B1 := countP_label_take lab m hall1
  have B2 := countP_label_take lab m hall2
  by_cases e0 : (0 : Int) = lab
  · have z1 := B1.2 (by omega)
    have z2 := B2.2 (by omega)
    omega
  · by_cases e1 : (1 : Int) = lab
    · have z0 := B0.2 e0
      have z2 := B2.2 (by omega)
      omega
    · by_cases e2 : (2 : Int) = lab
      · have z0 := B0.2 e0
        have z1 := B1.2 e1
        omega
      · have z0 := B0.2 e0
        have z1 := B1.2 e1
        have z2 := B2.2 e2
        omega

theorem per_label_at_most_max_witness :
    ((pipelineSelection (fun (s : Unit) l => (l, s)) () [exA, exB, exC] 10).filter
        (fun ex => decide (ex.label = 0))).length ≤ 10 :=
  per_label_at_most_max _ (fun _ l => List.Perm.refl l) () [exA, exB, exC] 10 0

/-- Claim C7: an unlabeled example (`label = -1`) never enters a label group
and never reaches the output; every grouped example carries its group's key,
and every selected example has a label among 0, 1, 2. -/
theorem unlabeled_never_selected {σ : Type}
    (shuffle : σ → List Example → List Example × σ)
    (hperm : ∀ s l, ((shuffle s l).1).Perm l)
    (s0 : σ) (train : List Example) (m : Nat) :
    (∀ lab : Int, ∀ ex ∈ buildGroup train lab, ex.label = lab ∧ ex.label ≠ -1) ∧
    (∀ ex ∈ pipelineSelection shuffle s0 train m,
      ex.label ≠ -1 ∧ (ex.label = 0 ∨ ex.label = 1 ∨ ex.label = 2)) ∧
    (∀ r ∈ writeRecords (pipelineSelection shuffle s0 train m), r.label ≠ -1) := by
  have hsel : ∀ ex ∈ pipelineSelection shuffle s0 train m,
      ex.label ≠ -1 ∧ (ex.label = 0 ∨ ex.label = 1 ∨ ex.label = 2) := by
    intro ex hex
    rcases pipelineSelection_mem hperm s0 train m ex hex with h | h | h
    · have := buildGroup_mem h
      exact ⟨this.2.1, Or.inl this.1⟩
    · have := buildGroup_mem h
      exact ⟨this.2.1, Or.inr (Or.inl this.1)⟩
    · have := buildGroup_mem h
      exact ⟨this.2.1, Or.inr (Or.inr this.1)⟩
  refine ⟨?_, hsel, ?_⟩
  · intro lab ex hex
    have := buildGroup_mem hex
    exact ⟨this.1, this.2.1⟩
  · intro r hr
    rw [writeRecords] at hr
    rcases List.mem_map.mp hr with ⟨ex, hex, rfl⟩
    exact (hsel ex hex).1

theorem is_hard_exA : is_hard_example exA = false := by decide

theorem is_hard_exC : is_hard_example exC = false := by decide

theorem tokenize_exC_length : (simple_tokenize exC.hypothesis).length = 4 := by
  decide

theorem overlap_exC : lexical_overlap exC.premise exC.hypothesis = 1 := by
  rw [lexical_overlap, if_neg (by decide)]
  norm_num [show (tokenFinset exC.premise ∩ tokenFinset exC.hypothesis).card = 4
      from by decide,
    show (tokenFinset exC.premise ∪ tokenFinset exC.hypothesis).card = 4
      from by decide]

theorem tokenize_exB_length : (simple_tokenize exB.hypothesis).length = 11 := by
  decide

theorem overlap_exB : lexical_overlap exB.premise exB.hypothesis = 1/12 := by
  rw [lexical_overlap, if_neg (by decide)]
  norm_num [show (tokenFinset exB.premise ∩ tokenFinset exB.hypothesis).card = 1
      from by decide,
    show (tokenFinset exB.premise ∪ tokenFinset exB.hypothesis).card = 12
      from by decide]

theorem is_hard_exB : is_hard_example exB = true := by
  have h1 : has_negation exB.hypothesis = false := by decide
  rw [is_hard_example, h1, overlap_exB]
  norm_num
  decide

theorem group0_concrete : buildGroup [exA, exB, exC] 0 = [exB] := by
  rw [buildGroup,
    show removeUnlabeled [exA, exB, exC] = [exA, exB, exC] from by decide]
  simp [List.filter, is_hard_exA, is_hard_exB, is_hard_exC]
  decide

theorem group1_concrete : buildGroup [exA, exB, exC] 1 = [] := by
  rw [buildGroup,
    show removeUnlabeled [exA, exB, exC] = [exA, exB, exC] from by decide]
  simp [List.filter, is_hard_exA, is_hard_exB, is_hard_exC]
  decide

theorem group2_concrete : buildGroup [exA, exB, exC] 2 = [] := by
  rw [buildGroup,
    show removeUnlabeled [exA, exB, exC] = [exA, exB, exC] from by decide]
  simp [List.filter, is_hard_exA, is_hard_exB, is_hard_exC]
  decide

theorem pipeline_three_generic {σ : Type}
    (shuffle : σ → List Example → List Example × σ)
    (hperm : ∀ s l, ((shuffle s l).1).Perm l) (s0 : σ) :
    pipelineSelection shuffle s0 [exA, exB, exC] 10 = [exB] := by
  have hnil : ∀ s, (shuffle s []).1 = [] :=
    fun s => List.perm_nil.mp (hperm s [])
  have hsing : ∀ s, (shuffle s [exB]).1 = [exB] :=
    fun s => List.perm_singleton.mp (hperm s [exB])
  rw [pipelineSelection, group0_concrete, group1_concrete, group2_concrete]
  simp only [sampleSelection, hnil, hsing, List.take_nil]
  rw [show List.take 10 [exB] ++ (([] : List Example) ++ ([] : List Example))
      = [exB] from rfl]
  exact hsing _

/-- Claim C2: on the three-fixture input with `max_per_label = 10`, the
pipeline selects exactly example (b): (a) is rejected for its negation
token, (c) is rejected (overlap 1 and 4 tokens), and (b) is accepted
(no negation, 11 tokens, overlap 1/12); the writer then emits exactly the
one record of (b) with label 0. -/
theorem pipeline_three_examples {σ : Type}
    (shuffle : σ → List Example → List Example × σ)
    (hperm : ∀ s l, ((shuffle s l).1).Perm l) (s0 : σ) :
    pipelineSelection shuffle s0 [exA, exB, exC] 10 = [exB] ∧
    writeRecords (pipelineSelection shuffle s0 [exA, exB, exC] 10) =
      [OutRecord.mk exB.premise exB.hypothesis 0] ∧
    has_negation exA.hypothesis = true ∧
    is_hard_example exA = false ∧
    lexical_overlap exC.premise exC.hypothesis = 1 ∧
    (1 : ℚ)/5 ≤ lexical_overlap exC.premise exC.hypothesis ∧
    (simple_tokenize exC.hypothesis).length = 4 ∧
    is_hard_example exC = false ∧
    has_negation exB.hypothesis = false ∧
    (simple_tokenize exB.hypothesis).length = 11 ∧
    lexical_overlap exB.premise exB.hypothesis = 1/12 ∧
    lexical_overlap exB.premise exB.hypothesis < 1/5 ∧
    is_hard_example exB = true := by
  have hsel := pipeline_three_generic shuffle hperm s0
  refine ⟨hsel, ?_, by decide, is_hard_exA, overlap_exC, ?_, tokenize_exC_length,
    is_hard_exC, by decide, tokenize_exB_length, overlap_exB, ?_, is_hard_exB⟩
  · rw [hsel]
    rfl
  · rw [overlap_exC]
    norm_num
  · rw [overlap_exB]
    norm_num

theorem pipeline_three_examples_witness :
    pipelineSelection (fun (s : Unit) l => (l, s)) () [exA, exB, exC] 10 = [exB] :=
  (pipeline_three_examples _ (fun _ l => List.Perm.refl l) ()).1

theorem unlabeled_never_selected_witness :
    exB.label ≠ -1 ∧ (exB.label = 0 ∨ exB.label = 1 ∨ exB.label = 2) :=
  (unlabeled_never_selected (fun (s : Unit) l => (l, s))
      (fun _ l => List.Perm.refl l) () [exA, exB, exC] 10).2.1 exB
    (by
      rw [pipeline_three_generic _ (fun _ l => List.Perm.refl l) ()]
      exact List.mem_singleton.mpr rfl)

/-- Claim C9: the stratified sampler is a deterministic function of the
seed, the label groups and the per-label maximum: two runs that agree on
those inputs (the shuffle source and its seed-derived initial state
included) return the same selection in the same order. -/
theorem sampler_deterministic {σ : Type}
    (shuffle : σ → List Example → List Example × σ) (seedState : Int → σ)
    (seed seed' : Int) (g0 g0' g1 g1' g2 g2' : List Example) (m m' : Nat)
    (hseed : seed = seed') (hg0 : g0 = g0') (hg1 : g1 = g1')
    (hg2 : g2 = g2') (hm : m = m') :
    sampleSelection shuffle (seedState seed) g0 g1 g2 m =
      sampleSelection shuffle (seedState seed') g0' g1' g2' m' := by
  rw [hseed, hg0, hg1, hg2, hm]

theorem sampler_deterministic_witness :
    sampleSelection (fun (s : Unit) l => (l, s)) ((fun (_ : Int) => ()) 7)
        [exB] [] [] 10 =
      sampleSelection (fun (s : Unit) l => (l, s)) ((fun (_ : Int) => ()) 7)
        [exB] [] [] 10 :=
  sampler_deterministic _ (fun _ => ()) 7 7 [exB] [exB] [] [] [] [] 10 10
    rfl rfl rfl rfl rfl

theorem hexVal_hexDigitChar (n : Nat) (h : n < 16) :
    hexVal (hexDigitChar n) = some n := by
  interval_cases n <;> decide

theorem decodeHex_hexDigitChar (a b : Nat) (ha : a < 16) (hb : b < 16) :
    decodeHex '0' '0' (hexDigitChar a) (hexDigitChar b) =
      some (a * 16 + b) := by
  rw [decodeHex, show hexVal '0' = some 0 from by decide,
    hexVal_hexDigitChar a ha, hexVal_hexDigitChar b hb]
  simp only [Option.some_bind, Option.map_some', Option.some.injEq]
  omega

theorem escChar_length_pos (c : Char) : 1 ≤ (escChar c).length := by
  rw [escChar]
  split_ifs <;> simp

theorem length_le_flatten_escChar (s : List Char) :
    s.length ≤ (List.flatten (s.map escChar)).length := by
  induction s with
  | nil => simp
  | cons c s ih =>
    rw [List.map_cons, List.flatten_cons, List.length_append, List.length_cons]
    have := escChar_length_pos c
    omega

theorem parseStrAuxF_roundtrip (s : List Char) : ∀ (fuel : Nat) (rest : List Char),
    s.length < fuel →
    parseStrAuxF fuel (List.flatten (s.map escChar) ++ ('"' :: rest)) =
      some (s, rest) := by
  induction s with
  | nil =>
    intro fuel rest hf
    obtain ⟨f, rfl⟩ : ∃ f, fuel = f + 1 := ⟨fuel - 1, by omega⟩
    rw [List.map_nil, List.flatten_nil, List.nil_append]
    rfl
  | cons c s ih =>
    intro fuel rest hf
    obtain ⟨f, rfl⟩ : ∃ f, fuel = f + 1 := ⟨fuel - 1, by omega⟩
    have hfs : s.length < f := by
      rw [List.length_cons] at hf
      omega
    by_cases h1 : c = '"' ∨ c = '\\'
    · have he : escChar c = ['\\', c] := by rw [escChar, if_pos h1]
      rw [List.map_cons, List.flatten_cons, he, List.append_assoc,
        List.cons_append, List.cons_append, List.nil_append]
      rcases h1 with h | h
      · subst h
        rw [show ∀ t, parseStrAuxF (f + 1) ('\\' :: '"' :: t) =
              Option.map (fun p => ('"' :: p.1, p.2)) (parseStrAuxF f t)
            from fun t => rfl]
        rw [ih f rest hfs, Option.map_some']
      · subst h
        rw [show ∀ t, parseStrAuxF (f + 1) ('\\' :: '\\' :: t) =
              Option.map (fun p => ('\\' :: p.1, p.2)) (parseStrAuxF f t)
            from fun t => rfl]
        rw [ih f rest hfs, Option.map_some']
    · by_cases h2 : c.toNat < 32
      · have he : escChar c = ['\\', 'u', '0', '0', hexDigitChar (c.toNat / 16),
            hexDigitChar (c.toNat % 16)] := by
          rw [escChar, if_neg h1, if_pos h2]
        rw [List.map_cons, List.flatten_cons, he, List.append_assoc]
        simp only [List.cons_append, List.nil_append]
        rw [show ∀ (x y : Char) (t : List Char),
              parseStrAuxF (f + 1) ('\\' :: 'u' :: '0' :: '0' :: x :: y :: t) =
                (decodeHex '0' '0' x y).bind (fun n =>
                  if Nat.isValidChar n then
                    Option.map (fun p => (Char.ofNat n :: p.1, p.2))
                      (parseStrAuxF f t)
                  else none)
            from fun x y t => rfl]
        rw [decodeHex_hexDigitChar _ _ (by omega) (by omega), Option.some_bind]
        rw [if_pos (show Nat.isValidChar (c.toNat / 16 * 16 + c.toNat % 16) from
          Or.inl (by omega))]
        rw [ih f rest hfs, Option.map_some',
          show c.toNat / 16 * 16 + c.toNat % 16 = c.toNat from by omega,
          Char.ofNat_toNat]
      · have he : escChar c = [c] := by rw [escChar, if_neg h1, if_neg h2]
        rw [List.map_cons, List.flatten_cons, he, List.append_assoc,
          List.cons_append, List.nil_append]
        rw [show ∀ t, parseStrAuxF (f + 1) (c :: t) =
              (if c = '"' then some ([], t)
               else if c = '\\' then
                 (match t with
                  | [] => none
                  | d :: rest2 =>
                    if d = '"' ∨ d = '\\' then
                      Option.map (fun p => (d :: p.1, p.2)) (parseStrAuxF f rest2)
                    else if d = 'u' then
                      match rest2 with
                      | e1 :: e2 :: e3 :: e4 :: rest3 =>
                        (decodeHex e1 e2 e3 e4).bind (fun n =>
                          if Nat.isValidChar n then
                            Option.map (fun p => (Char.ofNat n :: p.1, p.2))
                              (parseStrAuxF f rest3)
                          else none)
                      | _ => none
                    else none)
               else Option.map (fun p => (c :: p.1, p.2)) (parseStrAuxF f t))
            from fun t => rfl]
        rw [if_neg (fun hc => h1 (Or.inl hc)), if_neg (fun hc => h1 (Or.inr hc))]
        rw [ih f rest hfs, Option.map_some']

theorem parseString_roundtrip (s rest : List Char) :
    parseString (encString s ++ rest) = some (s, rest) := by
  rw [encString, List.cons_append, List.append_assoc, List.singleton_append]
  rw [show ∀ t : List Char, parseString ('"' :: t) =
      parseStrAuxF (t.length + 1) t from fun t => rfl]
  refine parseStrAuxF_roundtrip s _ rest ?_
  rw [List.length_append, List.length_cons]
  have := length_le_flatten_escChar s
  omega

theorem parseVal_str (s rest : List Char) :
    parseVal (encString s ++ rest) = some (JVal.jstr s, rest) := by
  have hshape : encString s ++ rest =
      '"' :: (List.flatten (s.map escChar) ++ ['"'] ++ rest) := by
    rw [encString, List.cons_append]
  rw [hshape,
    show ∀ t, parseVal ('"' :: t) =
      Option.map (fun p => (JVal.jstr p.1, p.2)) (parseString ('"' :: t))
      from fun t => rfl,
    ← hshape, parseString_roundtrip, Option.map_some']

theorem parseLit_append (lit rest : List Char) :
    parseLit lit (lit ++ rest) = some rest := by
  rw [parseLit, if_pos, List.drop_left]
  exact List.isPrefixOf_iff_prefix.mpr (List.prefix_append lit rest)

theorem parseMember_str (k s rest : List Char) :
    parseMember (encString k ++ (colonSep ++ (encString s ++ rest))) =
      some ((k, JVal.jstr s), rest) := by
  simp only [parseMember, parseString_roundtrip, Option.some_bind,
    parseLit_append, parseVal_str, Option.map_some']

theorem parseMember_label0 :
    parseMember (encString keyLabel ++
        (colonSep ++ (encInt 0 ++ [Char.ofNat 125]))) =
      some ((keyLabel, JVal.jint 0), [Char.ofNat 125]) := by decide

theorem parseMember_label1 :
    parseMember (encString keyLabel ++
        (colonSep ++ (encInt 1 ++ [Char.ofNat 125]))) =
      some ((keyLabel, JVal.jint 1), [Char.ofNat 125]) := by decide

theorem parseMember_label2 :
    parseMember (encString keyLabel ++
        (colonSep ++ (encInt 2 ++ [Char.ofNat 125]))) =
      some ((keyLabel, JVal.jint 2), [Char.ofNat 125]) := by decide

theorem parseObj3_enc3 (r : OutRecord)
    (hl : r.label = 0 ∨ r.label = 1 ∨ r.label = 2) :
    parseObj3 (enc3 r) =
      some [(keyPremise, JVal.jstr r.premise.toList),
            (keyHypothesis, JVal.jstr r.hypothesis.toList),
            (keyLabel, JVal.jint r.label)] := by
  rw [enc3]
  simp only [List.append_assoc]
  rw [show ∀ X, parseObj3 ('{' :: X) =
      (parseMember X).bind (fun m1 =>
        (parseLit commaSep m1.2).bind (fun r2 =>
          (parseMember r2).bind (fun m2 =>
            (parseLit commaSep m2.2).bind (fun r4 =>
              (parseMember r4).bind (fun m3 =>
                if m3.2 = [Char.ofNat 125] then some [m1.1, m2.1, m3.1]
                else none)))))
      from fun X => rfl]
  simp only [parseMember_str, Option.some_bind, parseLit_append]
  rcases hl with hl | hl | hl <;> rw [hl] <;>
    simp [parseMember_label0, parseMember_label1, parseMember_label2]

theorem hexDigitChar_ne_newline (n : Nat) (h : n < 16) :
    hexDigitChar n ≠ '\n' := by
  interval_cases n <;> decide

theorem newline_not_mem_escChar (c x : Char) (hx : x ∈ escChar c) :
    x ≠ '\n' := by
  rw [escChar] at hx
  by_cases h1 : c = '"' ∨ c = '\\'
  · rw [if_pos h1] at hx
    rcases List.mem_cons.mp hx with h | h
    · subst h
      decide
    · have hxc := List.mem_singleton.mp h
      subst hxc
      rcases h1 with h1 | h1 <;> (subst h1; decide)
  · rw [if_neg h1] at hx
    by_cases h2 : c.toNat < 32
    · rw [if_pos h2] at hx
      simp only [List.mem_cons, List.not_mem_nil, or_false] at hx
      rcases hx with h | h | h | h | h | h
      · subst h; decide
      · subst h; decide
      · subst h; decide
      · subst h; decide
      · subst h
        exact hexDigitChar_ne_newline _ (by omega)
      · subst h
        exact hexDigitChar_ne_newline _ (by omega)
    · rw [if_neg h2] at hx
      have hxc := List.mem_singleton.mp hx
      subst hxc
      intro heq
      rw [heq] at h2
      exact h2 (by decide)

theorem newline_not_mem_encString (s : List Char) : '\n' ∉ encString s := by
  rw [encString]
  intro hmem
  rcases List.mem_cons.mp hmem with h | h
  · exact absurd h (by decide)
  · rcases List.mem_append.mp h with h | h
    · rcases List.mem_flatten.mp h with ⟨chunk, hchunk, hx⟩
      rcases List.mem_map.mp hchunk with ⟨c, _, rfl⟩
      exact newline_not_mem_escChar c _ hx rfl
    · exact absurd (List.mem_singleton.mp h) (by decide)

theorem newline_not_mem_enc3 (r : OutRecord)
    (hl : r.label = 0 ∨ r.label = 1 ∨ r.label = 2) : '\n' ∉ enc3 r := by
  rw [enc3]
  intro hmem
  rcases List.mem_cons.mp hmem with h | h
  · exact absurd h (by decide)
  · simp only [List.append_assoc, List.mem_append] at h
    rcases h with h | h | h | h | h | h | h | h | h | h | h
    · exact newline_not_mem_encString keyPremise h
    · exact absurd h (by decide)
    · exact newline_not_mem_encString r.premise.toList h
    · exact absurd h (by decide)
    · exact newline_not_mem_encString keyHypothesis h
    · exact absurd h (by decide)
    · exact newline_not_mem_encString r.hypothesis.toList h
    · exact absurd h (by decide)
    · exact newline_not_mem_encString keyLabel h
    · exact absurd h (by decide)
    · rcases h with h | h
      · rcases hl with hl | hl | hl <;> rw [hl] at h <;> exact absurd h (by decide)
      · exact absurd h (by decide)

/-- Claim C8: the writer output is exactly one line per selected record,
each line the JSON object of the record's `premise`, `hypothesis` and
`label` keys followed by a newline, containing no interior newline, and
independently parseable back to exactly those three keys, with the label
among 0, 1, 2. -/
theorem writer_output_format {σ : Type}
    (shuffle : σ → List Example → List Example × σ)
    (hperm : ∀ s l, ((shuffle s l).1).Perm l)
    (s0 : σ) (train : List Example) (m : Nat) :
    outputChars (pipelineSelection shuffle s0 train m) =
      List.flatten ((writeRecords (pipelineSelection shuffle s0 train m)).map
        (fun r => enc3 r ++ ['\n'])) ∧
    (writeRecords (pipelineSelection shuffle s0 train m)).length =
      (pipelineSelection shuffle s0 train m).length ∧
    ∀ r ∈ writeRecords (pipelineSelection shuffle s0 train m),
      (r.label = 0 ∨ r.label = 1 ∨ r.label = 2) ∧
      '\n' ∉ enc3 r ∧
      parseObj3 (enc3 r) =
        some [(keyPremise, JVal.jstr r.premise.toList),
              (keyHypothesis, JVal.jstr r.hypothesis.toList),
              (keyLabel, JVal.jint r.label)] := by
  refine ⟨rfl, by rw [writeRecords, List.length_map], ?_⟩
  intro r hr
  have hlab : r.label = 0 ∨ r.label = 1 ∨ r.label = 2 := by
    rw [writeRecords] at hr
    rcases List.mem_map.mp hr with ⟨ex, hex, rfl⟩
    rcases pipelineSelection_mem hperm s0 train m ex hex with h | h | h
    · exact Or.inl (buildGroup_mem h).1
    · exact Or.inr (Or.inl (buildGroup_mem h).1)
    · exact Or.inr (Or.inr (buildGroup_mem h).1)
  exact ⟨hlab, newline_not_mem_enc3 r hlab, parseObj3_enc3 r hlab⟩

theorem writer_output_format_witness :
    (writeRecords (pipelineSelection (fun (s : Unit) l => (l, s)) ()
        [exA, exB, exC] 10)).length =
      (pipelineSelection (fun (s : Unit) l => (l, s)) ()
        [exA, exB, exC] 10).length :=
  (writer_output_format _ (fun _ l => List.Perm.refl l) () [exA, exB, exC] 10).2.1

end SNLI
